import Mathlib

/-!
Shallow embedding of the exam-seating allocator in `Task1.py`
(`allocate_seating_with_optimization` and the structures it consumes),
together with proofs of the specified properties.

Modelling notes:
* The three tabular inputs `ip_1` (student roster), `ip_2` (exam timetable)
  and `ip_3` (room table) are lists of records mirroring the columns that
  the allocator reads.
* The timetable's `exam_date` column holds `'%d/%m/%Y'` strings that the
  code parses with `datetime.strptime`; we model an already-parsed calendar
  date (`CalDate`), since parsing a well-formed date string is a bijection
  onto dates and the `'%d/%m/%Y'` rendering used for the output `Date`
  field is injective on dates.
* The `Roll_list` output field is the `';'.join` of the assigned roll
  numbers; we keep it as the ordered list of roll numbers being joined.
* `room_allocation_by_date` is a dict lazily initialised to 0 for every
  room of `ip_3` the first time a date is seen, and only ever read at
  room names drawn from `ip_3`; a total function `CalDate → String → Nat`
  defaulting to 0 is extensionally the same state.
* `raise ValueError` is modelled with `Except String`; a raise aborts the
  whole call, so no partial plan escapes, exactly as in Python.
* Python ints are unbounded, so the capacity arithmetic
  (`capacity - buffer_size`, which may go negative) is done in `Int`.
-/

/-- A calendar date, the result of `datetime.strptime(s, '%d/%m/%Y').date()`. -/
structure CalDate where
  day : Nat
  month : Nat
  year : Nat
deriving DecidableEq, Repr

/-- A row of `ip_1`: one student enrolled in one course. -/
structure StudentRec where
  roll_no : String
  semester : String
  course : String
deriving DecidableEq, Repr

/-- A row of `ip_2`: the exam date of a course. -/
structure TimetableEntry where
  course : String
  exam_date : CalDate
deriving DecidableEq, Repr

/-- A row of `ip_3`: a room with its block and capacity. -/
structure Room where
  room_name : String
  block : String
  capacity : Nat
deriving DecidableEq, Repr

/-- One entry of the returned seating plan (the dict appended to
`seating_plan`).  `Roll_list` keeps the ordered list of roll numbers that
the code joins with `';'`. -/
structure Record where
  Date : CalDate
  Day : String
  course_code : String
  Room : String
  Allocated_students_count : Nat
  Roll_list : List String
deriving DecidableEq, Repr

/-- The weekday name produced by `strftime('%A')`, via Zeller's congruence. -/
def dayName (d : CalDate) : String :=
  let m := if d.month ≤ 2 then d.month + 12 else d.month
  let y := if d.month ≤ 2 then d.year - 1 else d.year
  let k := y % 100
  let j := y / 100
  let h := (d.day + (13 * (m + 1)) / 5 + k + k / 4 + j / 4 + 5 * j) % 7
  ["Saturday", "Sunday", "Monday", "Tuesday", "Wednesday", "Thursday",
   "Friday"].getD h ""

/-- `room_allocation_by_date`: per-date, per-room-name count of already
seated students (0 when never touched, matching the lazy zero init). -/
abbrev Occ := CalDate → String → Nat

/-- `room_allocation_by_date[exam_date][room_name] += k`. -/
def bumpOcc (occ : Occ) (d : CalDate) (name : String) (k : Nat) : Occ :=
  fun d' n' => if d' = d ∧ n' = name then occ d' n' + k else occ d' n'

/-- `prioritized_blocks = ['Block 9', 'LT']`. -/
def prioritized_blocks : List String := ["Block 9", "LT"]

/-- The body of the inner `for _, room in rooms_in_block.iterrows()` loop:
capacity guard, per-mode take computation (with the `ValueError` on an
unknown `seating_type`), record emission and state update for one room. -/
def processRoom (buffer_size : Nat) (seating_type : String) (course : String)
    (exam_date : CalDate) (room : Room) (occ : Occ)
    (students : List StudentRec) :
    Except String (Occ × Option Record × List StudentRec) :=
  let room_capacity : Int := (room.capacity : Int) - (buffer_size : Int)
  let allocated_students : Nat := occ exam_date room.room_name
  if (allocated_students : Int) ≥ room_capacity then
    .ok (occ, none, students)
  else
    let remaining_capacity : Int := room_capacity - (allocated_students : Int)
    let num_students : Int := (students.length : Int)
    let emit : Int → Except String (Occ × Option Record × List StudentRec) :=
      fun max_course_capacity =>
        if 0 < max_course_capacity then
          let assigned_students := students.take max_course_capacity.toNat
          let rcd : Record :=
            { Date := exam_date
              Day := dayName exam_date
              course_code := course
              Room := room.room_name
              Allocated_students_count := assigned_students.length
              Roll_list := assigned_students.map StudentRec.roll_no }
          .ok (bumpOcc occ exam_date room.room_name assigned_students.length,
               some rcd, students.drop max_course_capacity.toNat)
        else
          .ok (occ, none, students)
    if seating_type = "dense" then
      emit (min remaining_capacity num_students)
    else if seating_type = "sparse" then
      emit (min (remaining_capacity / 2) num_students)
    else
      .error "Invalid seating type. Choose 'dense' or 'sparse'."

/-- The room loop over one (already capacity-sorted) block, with the
`if num_students <= 0: break` check after each room. -/
def processRooms (buffer_size : Nat) (seating_type : String) (course : String)
    (exam_date : CalDate) :
    List Room → Occ → List Record → List StudentRec →
    Except String (Occ × List Record × List StudentRec)
  | [], occ, plan, students => .ok (occ, plan, students)
  | room :: rest, occ, plan, students =>
    match processRoom buffer_size seating_type course exam_date room occ
        students with
    | .error e => .error e
    | .ok (occ', r?, students') =>
      let plan' := plan ++ r?.toList
      if students'.length = 0 then .ok (occ', plan', students')
      else processRooms buffer_size seating_type course exam_date rest occ'
        plan' students'

/-- Stable insertion used to model the deterministic `sort_values` orders:
`x` is placed before the first element `y` with `before x y`. -/
def insertSorted (before : α → α → Bool) (x : α) : List α → List α
  | [] => [x]
  | y :: ys => if before x y then x :: y :: ys else y :: insertSorted before x ys

/-- Stable sort by repeated insertion (earlier elements keep their relative
order among equal keys). -/
def sortByStable (before : α → α → Bool) (l : List α) : List α :=
  l.foldl (fun acc x => insertSorted before x acc) []

/-- `rooms_in_block.sort_values(by='capacity', ascending=False)`. -/
def sortRoomsByCapacityDesc (rs : List Room) : List Room :=
  sortByStable (fun a b => b.capacity < a.capacity) rs

/-- The `for block in prioritized_blocks` loop: skip blocks with no rooms,
sort a block's rooms by descending capacity, run the room loop, and stop
once the course has no students left. -/
def processBlocks (ip_3 : List Room) (buffer_size : Nat)
    (seating_type : String) (course : String) (exam_date : CalDate) :
    List String → Occ → List Record → List StudentRec →
    Except String (Occ × List Record × List StudentRec)
  | [], occ, plan, students => .ok (occ, plan, students)
  | block :: rest, occ, plan, students =>
    let rooms_in_block := ip_3.filter (fun r => r.block = block)
    if rooms_in_block.isEmpty then
      processBlocks ip_3 buffer_size seating_type course exam_date rest occ
        plan students
    else
      match processRooms buffer_size seating_type course exam_date
          (sortRoomsByCapacityDesc rooms_in_block) occ plan students with
      | .error e => .error e
      | .ok (occ', plan', students') =>
        if students'.length = 0 then .ok (occ', plan', students')
        else processBlocks ip_3 buffer_size seating_type course exam_date
          rest occ' plan' students'

/-- The distinct course codes of the roster in order of first appearance
(the group keys of `ip_1.groupby('course')`). -/
def uniqueCourses (ip_1 : List StudentRec) : List String :=
  (ip_1.map StudentRec.course).foldl
    (fun acc c => if c ∈ acc then acc else acc ++ [c]) []

/-- `course_groups.size()` for one course: the size of its roster group. -/
def courseSize (ip_1 : List StudentRec) (c : String) : Nat :=
  (ip_1.filter (fun s => s.course = c)).length

/-- `course_groups.size().sort_values(ascending=False).index`: course codes
sorted by descending group size (largest course first). -/
def sortedCourses (ip_1 : List StudentRec) : List String :=
  sortByStable (fun a b => courseSize ip_1 b < courseSize ip_1 a)
    (uniqueCourses ip_1)

/-- The `for course in sorted_courses` loop: per-course roster group,
timetable lookup (skip when absent), and the block/room allocation. -/
def processCourses (ip_1 : List StudentRec) (ip_2 : List TimetableEntry)
    (ip_3 : List Room) (buffer_size : Nat) (seating_type : String) :
    List String → Occ → List Record → Except String (Occ × List Record)
  | [], occ, plan => .ok (occ, plan)
  | course :: rest, occ, plan =>
    let students := ip_1.filter (fun s => s.course = course)
    match (ip_2.filter (fun e => e.course = course)).head? with
    | none => processCourses ip_1 ip_2 ip_3 buffer_size seating_type rest occ
        plan
    | some entry =>
      match processBlocks ip_3 buffer_size seating_type course entry.exam_date
          prioritized_blocks occ plan students with
      | .error e => .error e
      | .ok (occ', plan', _) =>
        processCourses ip_1 ip_2 ip_3 buffer_size seating_type rest occ' plan'

/-- The seating plan as emitted (before the final date sort): the contents
of the `seating_plan` list when the course loop finishes. -/
def allocate_plan (ip_1 : List StudentRec) (ip_2 : List TimetableEntry)
    (ip_3 : List Room) (buffer_size : Nat) (seating_type : String) :
    Except String (List Record) :=
  match processCourses ip_1 ip_2 ip_3 buffer_size seating_type
      (sortedCourses ip_1) (fun _ _ => 0) [] with
  | .error e => .error e
  | .ok (_, plan) => .ok plan

/-- `sorted(seating_plan, key=...)`: stable ascending sort by date
(`datetime` dates compare lexicographically by year, month, day). -/
def dateBefore (a b : CalDate) : Bool :=
  decide (a.year < b.year ∨ (a.year = b.year ∧
    (a.month < b.month ∨ (a.month = b.month ∧ a.day < b.day))))

/-- The final sort of the seating plan by ascending date. -/
def sortPlanByDate (plan : List Record) : List Record :=
  sortByStable (fun a b => dateBefore a.Date b.Date) plan

/-- `allocate_seating_with_optimization(ip_1, ip_2, ip_3, buffer_size,
seating_type)`: the full allocator, returning the date-sorted plan or the
`ValueError` message. -/
def allocate_seating_with_optimization (ip_1 : List StudentRec)
    (ip_2 : List TimetableEntry) (ip_3 : List Room) (buffer_size : Nat)
    (seating_type : String) : Except String (List Record) :=
  (allocate_plan ip_1 ip_2 ip_3 buffer_size seating_type).map sortPlanByDate

/-- How many students an optional allocation record seats. -/
def assignedCount : Option Record → Nat
  | none => 0
  | some r => r.Allocated_students_count

/-- Total `Allocated_students_count` over the records of `plan` that name
room `name` on date `d`. -/
def sumCounts : List Record → String → CalDate → Nat
  | [], _, _ => 0
  | r :: rs, name, d =>
    (if r.Room = name ∧ r.Date = d then r.Allocated_students_count else 0) +
      sumCounts rs name d

/-- The occupancy table respects every room's adjusted capacity. -/
def OccBound (ip_3 : List Room) (buffer_size : Nat) (occ : Occ) : Prop :=
  ∀ r ∈ ip_3, ∀ d, occ d r.room_name ≤ r.capacity - buffer_size

/-- Shape invariant of an emitted record: count/roll-list agreement, rolls
drawn in order from the record's course group, a timetable entry for the
course, and a prioritized room with usable capacity. -/
def RecWf (ip_1 : List StudentRec) (ip_2 : List TimetableEntry)
    (ip_3 : List Room) (buffer_size : Nat) (r : Record) : Prop :=
  r.Allocated_students_count = r.Roll_list.length ∧
  0 < r.Allocated_students_count ∧
  List.Sublist r.Roll_list
    ((ip_1.filter (fun s => s.course = r.course_code)).map
      StudentRec.roll_no) ∧
  (∃ e ∈ ip_2, e.course = r.course_code) ∧
  (∃ rm ∈ ip_3, r.Room = rm.room_name ∧ rm.block ∈ prioritized_blocks ∧
    buffer_size < rm.capacity)

/-- What one course's room/block scan does to the state: it appends records
for a prefix of the course's remaining students, keeps occupancy in sync
with the appended counts, and preserves the capacity bound. -/
def StepOut (ip_3 : List Room) (buffer_size : Nat) (course : String)
    (d : CalDate) (occ : Occ) (plan : List Record)
    (students : List StudentRec) (occ' : Occ) (plan' : List Record)
    (students' : List StudentRec) : Prop :=
  ∃ ext k,
    plan' = plan ++ ext ∧
    students' = students.drop k ∧
    ext.flatMap Record.Roll_list = (students.take k).map StudentRec.roll_no ∧
    (∀ r ∈ ext, r.course_code = course ∧ r.Date = d ∧
      r.Allocated_students_count = r.Roll_list.length ∧
      0 < r.Allocated_students_count ∧
      List.Sublist r.Roll_list (students.map StudentRec.roll_no) ∧
      ∃ rm ∈ ip_3, r.Room = rm.room_name ∧ rm.block ∈ prioritized_blocks ∧
        buffer_size < rm.capacity) ∧
    (∀ name dd, occ' dd name = occ dd name + sumCounts ext name dd) ∧
    ((ip_3.map Room.room_name).Nodup → OccBound ip_3 buffer_size occ →
      OccBound ip_3 buffer_size occ')

/-- What the course loop does to the state over a list of course codes. -/
def CoursesOut (ip_1 : List StudentRec) (ip_2 : List TimetableEntry)
    (ip_3 : List Room) (buffer_size : Nat) (cs : List String) (occ : Occ)
    (plan : List Record) (occ' : Occ) (plan' : List Record) : Prop :=
  ∃ ext,
    plan' = plan ++ ext ∧
    (∀ r ∈ ext, r.course_code ∈ cs ∧ RecWf ip_1 ip_2 ip_3 buffer_size r) ∧
    (∀ name dd, occ' dd name = occ dd name + sumCounts ext name dd) ∧
    ((ip_3.map Room.room_name).Nodup → OccBound ip_3 buffer_size occ →
      OccBound ip_3 buffer_size occ') ∧
    ((ip_1.map StudentRec.roll_no).Nodup → cs.Nodup →
      ext.Pairwise (fun a b => ∀ x ∈ a.Roll_list, x ∉ b.Roll_list)) ∧
    (cs.Pairwise (fun a b => courseSize ip_1 b ≤ courseSize ip_1 a) →
      ext.Pairwise (fun a b =>
        courseSize ip_1 b.course_code ≤ courseSize ip_1 a.course_code))

/-- Concrete calendar date used by the witness theorems. -/
def wD : CalDate := ⟨1, 6, 2025⟩

/-- Concrete roster used by the witness theorems. -/
def wRoster : List StudentRec :=
  [⟨"r1", "S1", "CS1"⟩, ⟨"r2", "S1", "CS1"⟩, ⟨"r3", "S1", "CS1"⟩]

/-- Concrete timetable used by the witness theorems. -/
def wTT : List TimetableEntry := [⟨"CS1", wD⟩]

/-- Concrete room table used by the witness theorems. -/
def wRooms : List Room := [⟨"A", "Block 9", 2⟩]

/-- The one record the allocator emits on `wRoster`/`wTT`/`wRooms` with
buffer size 0 in dense mode. -/
def wRec : Record := ⟨wD, "Sunday", "CS1", "A", 2, ["r1", "r2"]⟩

/-- The seating plan the allocator returns on the witness inputs. -/
def wPlan : List Record := [wRec]

/-- A two-course roster whose larger course appears later in input order. -/
def wRoster2 : List StudentRec :=
  [⟨"a1", "S1", "AA"⟩, ⟨"b1", "S1", "BB"⟩, ⟨"b2", "S1", "BB"⟩]

/-- Timetable for the two-course roster. -/
def wTT2 : List TimetableEntry := [⟨"AA", ⟨2, 6, 2025⟩⟩, ⟨"BB", wD⟩]

/-- The plan emitted (pre-sort) on the two-course input: the larger course
`BB` first. -/
def wPlan2 : List Record :=
  [⟨wD, "Sunday", "BB", "A", 2, ["b1", "b2"]⟩,
   ⟨⟨2, 6, 2025⟩, "Monday", "AA", "A", 1, ["a1"]⟩]

/-! ### Generic facts about the stable insertion sort -/

theorem insertSorted_perm (before : α → α → Bool) (x : α) (l : List α) :
    List.Perm (insertSorted before x l) (x :: l) := by
  induction l with
  | nil => simp [insertSorted]
  | cons y ys ih =>
    simp only [insertSorted]
    by_cases h : before x y = true
    · rw [if_pos h]
    · rw [if_neg h]
      exact (ih.cons y).trans (List.Perm.swap x y ys)

theorem sortByStable_aux_perm (before : α → α → Bool) :
    ∀ (l acc : List α),
      List.Perm (l.foldl (fun acc x => insertSorted before x acc) acc)
        (acc ++ l) := by
  intro l
  induction l with
  | nil => intro acc; simp
  | cons x xs ih =>
    intro acc
    simp only [List.foldl_cons]
    refine (ih (insertSorted before x acc)).trans ?_
    refine (List.Perm.append_right xs (insertSorted_perm before x acc)).trans ?_
    exact List.perm_middle.symm

theorem sortByStable_perm (before : α → α → Bool) (l : List α) :
    List.Perm (sortByStable before l) l := by
  simpa using sortByStable_aux_perm before l []

theorem mem_sortByStable (before : α → α → Bool) (l : List α) (a : α) :
    a ∈ sortByStable before l ↔ a ∈ l :=
  (sortByStable_perm before l).mem_iff

theorem mem_insertSorted (before : α → α → Bool) (x : α) (l : List α) (a : α) :
    a ∈ insertSorted before x l ↔ a = x ∨ a ∈ l := by
  rw [(insertSorted_perm before x l).mem_iff]
  simp

theorem insertSorted_pairwise (before : α → α → Bool)
    (hasym : ∀ a b, before a b = true → before b a = false)
    (htr : ∀ x y z, before x y = true → before z y = false →
      before z x = false)
    (x : α) (l : List α) (hl : l.Pairwise (fun a b => before b a = false)) :
    (insertSorted before x l).Pairwise (fun a b => before b a = false) := by
  induction l with
  | nil => simp [insertSorted]
  | cons y ys ih =>
    rw [List.pairwise_cons] at hl
    obtain ⟨hy, hys⟩ := hl
    simp only [insertSorted]
    by_cases h : before x y = true
    · rw [if_pos h]
      refine List.Pairwise.cons ?_ (List.Pairwise.cons hy hys)
      intro z hz
      rcases List.mem_cons.mp hz with rfl | hz'
      · exact hasym x z h
      · exact htr x y z h (hy z hz')
    · rw [if_neg h]
      refine List.Pairwise.cons ?_ (ih hys)
      intro z hz
      rcases (mem_insertSorted before x ys z).mp hz with rfl | hz'
      · exact Bool.not_eq_true _ ▸ eq_false_of_ne_true h
      · exact hy z hz'

theorem sortByStable_aux_pairwise (before : α → α → Bool)
    (hasym : ∀ a b, before a b = true → before b a = false)
    (htr : ∀ x y z, before x y = true → before z y = false →
      before z x = false) :
    ∀ (l acc : List α), acc.Pairwise (fun a b => before b a = false) →
      (l.foldl (fun acc x => insertSorted before x acc) acc).Pairwise
        (fun a b => before b a = false) := by
  intro l
  induction l with
  | nil => intro acc hacc; simpa using hacc
  | cons x xs ih =>
    intro acc hacc
    simp only [List.foldl_cons]
    exact ih _ (insertSorted_pairwise before hasym htr x acc hacc)

theorem sortByStable_pairwise (before : α → α → Bool)
    (hasym : ∀ a b, before a b = true → before b a = false)
    (htr : ∀ x y z, before x y = true → before z y = false →
      before z x = false) (l : List α) :
    (sortByStable before l).Pairwise (fun a b => before b a = false) :=
  sortByStable_aux_pairwise before hasym htr l [] (by simp)

/-! ### Facts about `sumCounts` -/

theorem sumCounts_append (l1 l2 : List Record) (name : String) (d : CalDate) :
    sumCounts (l1 ++ l2) name d = sumCounts l1 name d + sumCounts l2 name d := by
  induction l1 with
  | nil => simp [sumCounts]
  | cons r rs ih =>
    simp only [List.cons_append, sumCounts, List.append_eq]
    rw [ih]
    omega

theorem sumCounts_eq_sum_map (l : List Record) (name : String) (d : CalDate) :
    sumCounts l name d =
      (l.map (fun r => if r.Room = name ∧ r.Date = d
        then r.Allocated_students_count else 0)).sum := by
  induction l with
  | nil => simp [sumCounts]
  | cons r rs ih => simp [sumCounts, ih]

theorem sumCounts_perm {l1 l2 : List Record} (h : List.Perm l1 l2)
    (name : String) (d : CalDate) :
    sumCounts l1 name d = sumCounts l2 name d := by
  rw [sumCounts_eq_sum_map, sumCounts_eq_sum_map]
  exact (h.map _).sum_eq

theorem StepOut_self (ip_3 : List Room) (buffer_size : Nat) (course : String)
    (d : CalDate) (occ : Occ) (plan : List Record)
    (students : List StudentRec) :
    StepOut ip_3 buffer_size course d occ plan students occ plan students := by
  refine ⟨[], 0, by simp, by simp, by simp, by simp, ?_, fun _ h => h⟩
  intro name dd
  simp [sumCounts]

theorem emit_stepOut (ip_3 : List Room) (buffer_size : Nat) (course : String)
    (d : CalDate) (room : Room) (occ : Occ) (plan : List Record)
    (students : List StudentRec)
    (hmem : room ∈ ip_3) (hblk : room.block ∈ prioritized_blocks)
    (mcc : Int) (hpos : 0 < mcc)
    (hub : mcc ≤ (students.length : Int))
    (hrem : mcc ≤ (room.capacity : Int) - (buffer_size : Int) -
      (occ d room.room_name : Int)) :
    StepOut ip_3 buffer_size course d occ plan students
      (bumpOcc occ d room.room_name (students.take mcc.toNat).length)
      (plan ++ [{ Date := d, Day := dayName d, course_code := course,
                  Room := room.room_name,
                  Allocated_students_count := (students.take mcc.toNat).length,
                  Roll_list :=
                    (students.take mcc.toNat).map StudentRec.roll_no }])
      (students.drop mcc.toNat) := by
  have hlen : (students.take mcc.toNat).length = mcc.toNat := by
    rw [List.length_take]
    omega
  refine ⟨_, mcc.toNat, rfl, rfl, ?_, ?_, ?_, ?_⟩
  · simp
  · intro r hr
    rcases List.mem_singleton.mp hr with rfl
    refine ⟨rfl, rfl, by simp, ?_, ?_, room, hmem, rfl, hblk, by omega⟩
    · simp only [hlen]
      omega
    · exact (List.take_sublist _ _).map _
  · intro name dd
    simp only [bumpOcc, sumCounts, Nat.add_zero]
    rcases Decidable.em (dd = d ∧ name = room.room_name) with hc | hc
    · rw [if_pos hc, if_pos ⟨hc.2.symm, hc.1.symm⟩]
    · rw [if_neg hc, if_neg (fun hx => hc ⟨hx.2.symm, hx.1.symm⟩), Nat.add_zero]
  · intro hnames hb rm hrm dd
    simp only [bumpOcc]
    rcases Decidable.em (dd = d ∧ rm.room_name = room.room_name) with hc | hc
    · obtain ⟨hdd, hnm⟩ := hc
      subst hdd
      rw [if_pos ⟨rfl, hnm⟩]
      have hrmeq : rm = room := List.inj_on_of_nodup_map hnames hrm hmem hnm
      subst hrmeq
      rw [hlen]
      omega
    · rw [if_neg hc]
      exact hb rm hrm dd

theorem processRoom_stepOut (ip_3 : List Room) (buffer_size : Nat)
    (seating_type : String) (course : String) (d : CalDate) (room : Room)
    (occ : Occ) (plan : List Record) (students : List StudentRec)
    (hmem : room ∈ ip_3) (hblk : room.block ∈ prioritized_blocks)
    (occ' : Occ) (r? : Option Record) (students' : List StudentRec)
    (h : processRoom buffer_size seating_type course d room occ students =
      .ok (occ', r?, students')) :
    StepOut ip_3 buffer_size course d occ plan students occ'
      (plan ++ r?.toList) students' := by
  simp only [processRoom] at h
  split at h
  · simp only [Except.ok.injEq, Prod.mk.injEq] at h
    obtain ⟨rfl, rfl, rfl⟩ := h
    simpa using StepOut_self ip_3 buffer_size course d occ plan students
  · rename_i hg
    split at h
    · split at h
      · rename_i hpos
        simp only [Except.ok.injEq, Prod.mk.injEq] at h
        obtain ⟨rfl, rfl, rfl⟩ := h
        simp only [Option.toList_some]
        exact emit_stepOut ip_3 buffer_size course d room occ plan students
          hmem hblk _ hpos (min_le_right _ _) (by omega)
      · simp only [Except.ok.injEq, Prod.mk.injEq] at h
        obtain ⟨rfl, rfl, rfl⟩ := h
        simpa using StepOut_self ip_3 buffer_size course d occ plan students
    · split at h
      · split at h
        · rename_i hpos
          simp only [Except.ok.injEq, Prod.mk.injEq] at h
          obtain ⟨rfl, rfl, rfl⟩ := h
          simp only [Option.toList_some]
          exact emit_stepOut ip_3 buffer_size course d room occ plan students
            hmem hblk _ hpos (min_le_right _ _) (by omega)
        · simp only [Except.ok.injEq, Prod.mk.injEq] at h
          obtain ⟨rfl, rfl, rfl⟩ := h
          simpa using StepOut_self ip_3 buffer_size course d occ plan students
      · exact absurd h (by simp)

theorem processRoom_error (buffer_size : Nat) (seating_type : String)
    (course : String) (d : CalDate) (room : Room) (occ : Occ)
    (students : List StudentRec) (e : String)
    (h : processRoom buffer_size seating_type course d room occ students =
      .error e) :
    e = "Invalid seating type. Choose 'dense' or 'sparse'." ∧
    seating_type ≠ "dense" ∧ seating_type ≠ "sparse" := by
  simp only [processRoom] at h
  split at h
  · exact absurd h (by simp)
  · split at h
    · rename_i hd
      split at h <;> exact absurd h (by simp)
    · split at h
      · split at h <;> exact absurd h (by simp)
      · rename_i h1 h2
        simp only [Except.error.injEq] at h
        exact ⟨h.symm, h1, h2⟩

theorem StepOut_comp {ip_3 : List Room} {buffer_size : Nat} {course : String}
    {d : CalDate} {occ : Occ} {plan : List Record}
    {students : List StudentRec} {occ1 : Occ} {plan1 : List Record}
    {students1 : List StudentRec} {occ2 : Occ} {plan2 : List Record}
    {students2 : List StudentRec}
    (h1 : StepOut ip_3 buffer_size course d occ plan students occ1 plan1
      students1)
    (h2 : StepOut ip_3 buffer_size course d occ1 plan1 students1 occ2 plan2
      students2) :
    StepOut ip_3 buffer_size course d occ plan students occ2 plan2
      students2 := by
  obtain ⟨e1, k1, hp1, hs1, hf1, hw1, ho1, hb1⟩ := h1
  obtain ⟨e2, k2, hp2, hs2, hf2, hw2, ho2, hb2⟩ := h2
  refine ⟨e1 ++ e2, k1 + k2, ?_, ?_, ?_, ?_, ?_, ?_⟩
  · rw [hp2, hp1, List.append_assoc]
  · rw [hs2, hs1, List.drop_drop]
  · rw [List.flatMap_append, hf1, hf2, hs1, ← List.map_append,
      ← List.take_add]
  · intro r hr
    rcases List.mem_append.mp hr with hr1 | hr2
    · exact hw1 r hr1
    · obtain ⟨hc, hd, hcnt, hpos, hsub, hrm⟩ := hw2 r hr2
      refine ⟨hc, hd, hcnt, hpos, ?_, hrm⟩
      rw [hs1] at hsub
      exact hsub.trans ((List.drop_sublist k1 students).map _)
  · intro name dd
    rw [ho2, ho1, sumCounts_append]
    omega
  · intro hn hb
    exact hb2 hn (hb1 hn hb)

theorem processRooms_stepOut (ip_3 : List Room) (buffer_size : Nat)
    (seating_type : String) (course : String) (d : CalDate) :
    ∀ (rs : List Room) (occ : Occ) (plan : List Record)
      (students : List StudentRec),
      (∀ r ∈ rs, r ∈ ip_3 ∧ r.block ∈ prioritized_blocks) →
      ∀ (occ' : Occ) (plan' : List Record) (students' : List StudentRec),
        processRooms buffer_size seating_type course d rs occ plan students =
          .ok (occ', plan', students') →
        StepOut ip_3 buffer_size course d occ plan students occ' plan'
          students' := by
  intro rs
  induction rs with
  | nil =>
    intro occ plan students _ occ' plan' students' h
    simp only [processRooms, Except.ok.injEq, Prod.mk.injEq] at h
    obtain ⟨rfl, rfl, rfl⟩ := h
    exact StepOut_self ip_3 buffer_size course d occ plan students
  | cons room rest ih =>
    intro occ plan students hrs occ' plan' students' h
    simp only [processRooms] at h
    rcases hpr : processRoom buffer_size seating_type course d room occ
        students with e | ⟨occ1, r?, students1⟩
    · rw [hpr] at h
      exact absurd h (by simp)
    · rw [hpr] at h
      simp only at h
      have hstep := processRoom_stepOut ip_3 buffer_size seating_type course
        d room occ plan students (hrs room (by simp)).1
        (hrs room (by simp)).2 occ1 r? students1 hpr
      split at h
      · simp only [Except.ok.injEq, Prod.mk.injEq] at h
        obtain ⟨rfl, rfl, rfl⟩ := h
        exact hstep
      · exact StepOut_comp hstep
          (ih occ1 (plan ++ r?.toList) students1
            (fun r hr => hrs r (List.mem_cons_of_mem room hr)) occ' plan'
            students' h)

theorem processRooms_error (_ip_3 : List Room) (buffer_size : Nat)
    (seating_type : String) (course : String) (d : CalDate) :
    ∀ (rs : List Room) (occ : Occ) (plan : List Record)
      (students : List StudentRec) (e : String),
      processRooms buffer_size seating_type course d rs occ plan students =
        .error e →
      e = "Invalid seating type. Choose 'dense' or 'sparse'." ∧
      seating_type ≠ "dense" ∧ seating_type ≠ "sparse" := by
  intro rs
  induction rs with
  | nil =>
    intro occ plan students e h
    exact absurd h (by simp [processRooms])
  | cons room rest ih =>
    intro occ plan students e h
    simp only [processRooms] at h
    rcases hpr : processRoom buffer_size seating_type course d room occ
        students with e' | ⟨occ1, r?, students1⟩
    · rw [hpr] at h
      simp only [Except.error.injEq] at h
      exact h ▸ processRoom_error buffer_size seating_type course d room occ
        students e' hpr
    · rw [hpr] at h
      simp only at h
      split at h
      · exact absurd h (by simp)
      · exact ih occ1 (plan ++ r?.toList) students1 e h

theorem mem_sortRoomsByCapacityDesc (rs : List Room) (r : Room) :
    r ∈ sortRoomsByCapacityDesc rs ↔ r ∈ rs :=
  mem_sortByStable _ rs r

theorem processBlocks_stepOut (ip_3 : List Room) (buffer_size : Nat)
    (seating_type : String) (course : String) (d : CalDate) :
    ∀ (bs : List String) (occ : Occ) (plan : List Record)
      (students : List StudentRec),
      (∀ b ∈ bs, b ∈ prioritized_blocks) →
      ∀ (occ' : Occ) (plan' : List Record) (students' : List StudentRec),
        processBlocks ip_3 buffer_size seating_type course d bs occ plan
          students = .ok (occ', plan', students') →
        StepOut ip_3 buffer_size course d occ plan students occ' plan'
          students' := by
  intro bs
  induction bs with
  | nil =>
    intro occ plan students _ occ' plan' students' h
    simp only [processBlocks, Except.ok.injEq, Prod.mk.injEq] at h
    obtain ⟨rfl, rfl, rfl⟩ := h
    exact StepOut_self ip_3 buffer_size course d occ plan students
  | cons b rest ih =>
    intro occ plan students hbs occ' plan' students' h
    simp only [processBlocks] at h
    split at h
    · exact ih occ plan students
        (fun b' hb' => hbs b' (List.mem_cons_of_mem b hb')) occ' plan'
        students' h
    · have hrooms : ∀ r ∈ sortRoomsByCapacityDesc
          (ip_3.filter (fun r => r.block = b)),
          r ∈ ip_3 ∧ r.block ∈ prioritized_blocks := by
        intro r hr
        rw [mem_sortRoomsByCapacityDesc] at hr
        have := List.mem_filter.mp hr
        refine ⟨this.1, ?_⟩
        have hbeq : r.block = b := by simpa using this.2
        rw [hbeq]
        exact hbs b (List.mem_cons_self b rest)
      rcases hpr : processRooms buffer_size seating_type course d
          (sortRoomsByCapacityDesc (ip_3.filter (fun r => r.block = b))) occ
          plan students with e | ⟨occ1, plan1, students1⟩
      · rw [hpr] at h
        exact absurd h (by simp)
      · rw [hpr] at h
        simp only at h
        have hstep := processRooms_stepOut ip_3 buffer_size seating_type
          course d _ occ plan students hrooms occ1 plan1 students1 hpr
        split at h
        · simp only [Except.ok.injEq, Prod.mk.injEq] at h
          obtain ⟨rfl, rfl, rfl⟩ := h
          exact hstep
        · exact StepOut_comp hstep
            (ih occ1 plan1 students1
              (fun b' hb' => hbs b' (List.mem_cons_of_mem b hb')) occ' plan'
              students' h)

theorem processBlocks_error (ip_3 : List Room) (buffer_size : Nat)
    (seating_type : String) (course : String) (d : CalDate) :
    ∀ (bs : List String) (occ : Occ) (plan : List Record)
      (students : List StudentRec) (e : String),
      processBlocks ip_3 buffer_size seating_type course d bs occ plan
        students = .error e →
      e = "Invalid seating type. Choose 'dense' or 'sparse'." ∧
      seating_type ≠ "dense" ∧ seating_type ≠ "sparse" := by
  intro bs
  induction bs with
  | nil =>
    intro occ plan students e h
    exact absurd h (by simp [processBlocks])
  | cons b rest ih =>
    intro occ plan students e h
    simp only [processBlocks] at h
    split at h
    · exact ih occ plan students e h
    · rcases hpr : processRooms buffer_size seating_type course d
          (sortRoomsByCapacityDesc (ip_3.filter (fun r => r.block = b))) occ
          plan students with e' | ⟨occ1, plan1, students1⟩
      · rw [hpr] at h
        simp only [Except.error.injEq] at h
        exact h ▸ processRooms_error ip_3 buffer_size seating_type course d _
          occ plan students e' hpr
      · rw [hpr] at h
        simp only at h
        split at h
        · exact absurd h (by simp)
        · exact ih occ1 plan1 students1 e h

theorem pairwise_of_mem_rel {α : Type} {R : α → α → Prop} :
    ∀ (l : List α), (∀ a ∈ l, ∀ b ∈ l, R a b) → l.Pairwise R := by
  intro l
  induction l with
  | nil => intro _; exact List.Pairwise.nil
  | cons a l ih =>
    intro h
    refine List.Pairwise.cons (fun b hb => h a (by simp) b (by simp [hb]))
      (ih ?_)
    intro x hx y hy
    exact h x (by simp [hx]) y (by simp [hy])

theorem pairwise_disjoint_of_flatMap_nodup :
    ∀ (l : List Record), (l.flatMap Record.Roll_list).Nodup →
      l.Pairwise (fun a b => ∀ x ∈ a.Roll_list, x ∉ b.Roll_list) := by
  intro l
  induction l with
  | nil => intro _; exact List.Pairwise.nil
  | cons r rs ih =>
    intro h
    rw [List.flatMap_cons, List.nodup_append] at h
    obtain ⟨_, h2, h3⟩ := h
    refine List.Pairwise.cons ?_ (ih h2)
    intro b hb x hx hxb
    exact h3 hx (List.mem_flatMap.mpr ⟨b, hb, hxb⟩)

theorem rolls_of_ne_courses_disjoint (ip_1 : List StudentRec)
    (hrolls : (ip_1.map StudentRec.roll_no).Nodup)
    (c1 c2 : String) (hne : c1 ≠ c2) (x : String)
    (h1 : x ∈ (ip_1.filter (fun s => s.course = c1)).map StudentRec.roll_no)
    (h2 : x ∈ (ip_1.filter (fun s => s.course = c2)).map StudentRec.roll_no) :
    False := by
  obtain ⟨s1, hs1, hx1⟩ := List.mem_map.mp h1
  obtain ⟨s2, hs2, hx2⟩ := List.mem_map.mp h2
  have hm1 := List.mem_filter.mp hs1
  have hm2 := List.mem_filter.mp hs2
  have hss : s1 = s2 :=
    List.inj_on_of_nodup_map hrolls hm1.1 hm2.1 (hx1.trans hx2.symm)
  apply hne
  have e1 : s1.course = c1 := by simpa using hm1.2
  have e2 : s2.course = c2 := by simpa using hm2.2
  rw [← e1, hss, e2]

theorem timetable_head_mem {ip_2 : List TimetableEntry} {c : String}
    {entry : TimetableEntry}
    (h : (ip_2.filter (fun e => e.course = c)).head? = some entry) :
    entry ∈ ip_2 ∧ entry.course = c := by
  have hmem := List.mem_of_mem_head? h
  have := List.mem_filter.mp hmem
  exact ⟨this.1, by simpa using this.2⟩

theorem processCourses_out (ip_1 : List StudentRec)
    (ip_2 : List TimetableEntry) (ip_3 : List Room) (buffer_size : Nat)
    (seating_type : String) :
    ∀ (cs : List String) (occ : Occ) (plan : List Record) (occ' : Occ)
      (plan' : List Record),
      processCourses ip_1 ip_2 ip_3 buffer_size seating_type cs occ plan =
        .ok (occ', plan') →
      CoursesOut ip_1 ip_2 ip_3 buffer_size cs occ plan occ' plan' := by
  intro cs
  induction cs with
  | nil =>
    intro occ plan occ' plan' h
    simp only [processCourses, Except.ok.injEq, Prod.mk.injEq] at h
    obtain ⟨rfl, rfl⟩ := h
    refine ⟨[], by simp, by simp, ?_, fun _ hb => hb,
      fun _ _ => List.Pairwise.nil, fun _ => List.Pairwise.nil⟩
    intro name dd
    simp [sumCounts]
  | cons c cs ih =>
    intro occ plan occ' plan' h
    simp only [processCourses] at h
    rcases hhead : (ip_2.filter (fun e => e.course = c)).head? with _ | entry
    · rw [hhead] at h
      simp only at h
      obtain ⟨ext, hplan, hwf, hocc, hbound, hdisj, hsize⟩ :=
        ih occ plan occ' plan' h
      refine ⟨ext, hplan, ?_, hocc, hbound, ?_, ?_⟩
      · intro r hr
        obtain ⟨hin, hwfr⟩ := hwf r hr
        exact ⟨List.mem_cons_of_mem c hin, hwfr⟩
      · intro hrolls hnodup
        exact hdisj hrolls hnodup.of_cons
      · intro hp
        exact hsize ((List.pairwise_cons.mp hp).2)
    · rw [hhead] at h
      simp only at h
      rcases hblocks : processBlocks ip_3 buffer_size seating_type c
          entry.exam_date prioritized_blocks occ plan
          (ip_1.filter (fun s => s.course = c)) with e |
          ⟨occ1, plan1, students1⟩
      · rw [hblocks] at h
        exact absurd h (by simp)
      · rw [hblocks] at h
        simp only at h
        obtain ⟨ext1, k1, hp1, _, hflat1, hw1, ho1, hb1⟩ :=
          processBlocks_stepOut ip_3 buffer_size seating_type c
            entry.exam_date prioritized_blocks occ plan _ (fun _ hb => hb)
            occ1 plan1 students1 hblocks
        obtain ⟨ext2, hp2, hw2, ho2, hb2, hd2, hs2⟩ :=
          ih occ1 plan1 occ' plan' h
        refine ⟨ext1 ++ ext2, ?_, ?_, ?_, ?_, ?_, ?_⟩
        · rw [hp2, hp1, List.append_assoc]
        · intro r hr
          rcases List.mem_append.mp hr with hr1 | hr2
          · obtain ⟨hc, _, hcnt, hpos, hsub, hrm⟩ := hw1 r hr1
            refine ⟨by rw [hc]; exact List.mem_cons_self c cs, hcnt, hpos,
              ?_, ?_, hrm⟩
            · rw [hc]
              exact hsub
            · exact ⟨entry, (timetable_head_mem hhead).1,
                by rw [hc]; exact (timetable_head_mem hhead).2⟩
          · obtain ⟨hin, hwfr⟩ := hw2 r hr2
            exact ⟨List.mem_cons_of_mem c hin, hwfr⟩
        · intro name dd
          rw [ho2, ho1, sumCounts_append]
          omega
        · intro hn hb
          exact hb2 hn (hb1 hn hb)
        · intro hrolls hnodup
          rw [List.pairwise_append]
          refine ⟨?_, hd2 hrolls hnodup.of_cons, ?_⟩
          · apply pairwise_disjoint_of_flatMap_nodup
            rw [hflat1]
            refine hrolls.sublist ?_
            exact (((List.take_sublist k1 _).trans
              (List.filter_sublist ip_1)).map StudentRec.roll_no)
          · intro a ha b hb x hxa hxb
            obtain ⟨hac, _, _, _, hasub, _⟩ := hw1 a ha
            obtain ⟨hbin, _, _, hbsub, _, _⟩ := hw2 b hb
            have hcnot : c ∉ cs := (List.nodup_cons.mp hnodup).1
            have hne : c ≠ b.course_code := by
              intro heq
              exact hcnot (heq ▸ hbin)
            exact rolls_of_ne_courses_disjoint ip_1 hrolls c b.course_code
              hne x (hasub.subset hxa) (hbsub.subset hxb)
        · intro hp
          have hp' := List.pairwise_cons.mp hp
          rw [List.pairwise_append]
          refine ⟨?_, hs2 hp'.2, ?_⟩
          · refine pairwise_of_mem_rel ext1 ?_
            intro a ha b hb
            rw [(hw1 a ha).1, (hw1 b hb).1]
          · intro a ha b hb
            rw [(hw1 a ha).1]
            exact hp'.1 b.course_code (hw2 b hb).1

theorem processCourses_error (ip_1 : List StudentRec)
    (ip_2 : List TimetableEntry) (ip_3 : List Room) (buffer_size : Nat)
    (seating_type : String) :
    ∀ (cs : List String) (occ : Occ) (plan : List Record) (e : String),
      processCourses ip_1 ip_2 ip_3 buffer_size seating_type cs occ plan =
        .error e →
      e = "Invalid seating type. Choose 'dense' or 'sparse'." ∧
      seating_type ≠ "dense" ∧ seating_type ≠ "sparse" := by
  intro cs
  induction cs with
  | nil =>
    intro occ plan e h
    exact absurd h (by simp [processCourses])
  | cons c cs ih =>
    intro occ plan e h
    simp only [processCourses] at h
    rcases hhead : (ip_2.filter (fun e => e.course = c)).head? with _ | entry
    · rw [hhead] at h
      simp only at h
      exact ih occ plan e h
    · rw [hhead] at h
      simp only at h
      rcases hblocks : processBlocks ip_3 buffer_size seating_type c
          entry.exam_date prioritized_blocks occ plan
          (ip_1.filter (fun s => s.course = c)) with e' |
          ⟨occ1, plan1, students1⟩
      · rw [hblocks] at h
        simp only [Except.error.injEq] at h
        exact h ▸ processBlocks_error ip_3 buffer_size seating_type c
          entry.exam_date prioritized_blocks occ plan _ e' hblocks
      · rw [hblocks] at h
        simp only at h
        exact ih occ1 plan1 e h

theorem uniqueCourses_aux_nodup :
    ∀ (l acc : List String), acc.Nodup →
      (l.foldl (fun acc c => if c ∈ acc then acc else acc ++ [c]) acc).Nodup := by
  intro l
  induction l with
  | nil =>
    intro acc h
    simpa using h
  | cons x xs ih =>
    intro acc h
    simp only [List.foldl_cons]
    by_cases hx : x ∈ acc
    · rw [if_pos hx]
      exact ih acc h
    · rw [if_neg hx]
      refine ih _ ?_
      rw [List.nodup_append]
      refine ⟨h, by simp, ?_⟩
      intro a ha
      simp only [List.mem_singleton]
      intro heq
      exact hx (heq ▸ ha)

theorem uniqueCourses_nodup (ip_1 : List StudentRec) :
    (uniqueCourses ip_1).Nodup :=
  uniqueCourses_aux_nodup _ [] List.nodup_nil

theorem sortedCourses_nodup (ip_1 : List StudentRec) :
    (sortedCourses ip_1).Nodup :=
  ((sortByStable_perm _ _).nodup_iff).mpr (uniqueCourses_nodup ip_1)

theorem sortedCourses_sorted (ip_1 : List StudentRec) :
    (sortedCourses ip_1).Pairwise
      (fun a b => courseSize ip_1 b ≤ courseSize ip_1 a) := by
  have h := sortByStable_pairwise
    (fun a b : String => decide (courseSize ip_1 b < courseSize ip_1 a))
    (fun a b hab => by
      simp only [decide_eq_true_eq] at hab
      simp only [decide_eq_false_iff_not]
      omega)
    (fun x y z hxy hzy => by
      simp only [decide_eq_true_eq] at hxy
      simp only [decide_eq_false_iff_not] at hzy
      simp only [decide_eq_false_iff_not]
      omega)
    (uniqueCourses ip_1)
  refine List.Pairwise.imp ?_ h
  intro a b hab
  simp only [decide_eq_false_iff_not] at hab
  omega

theorem allocate_plan_out (ip_1 : List StudentRec)
    (ip_2 : List TimetableEntry) (ip_3 : List Room) (buffer_size : Nat)
    (seating_type : String) (plan0 : List Record)
    (h : allocate_plan ip_1 ip_2 ip_3 buffer_size seating_type = .ok plan0) :
    ∃ occ', CoursesOut ip_1 ip_2 ip_3 buffer_size (sortedCourses ip_1)
      (fun _ _ => 0) [] occ' plan0 := by
  simp only [allocate_plan] at h
  rcases hpc : processCourses ip_1 ip_2 ip_3 buffer_size seating_type
      (sortedCourses ip_1) (fun _ _ => 0) [] with e | ⟨occ', plan1⟩
  · rw [hpc] at h
    exact absurd h (by simp)
  · rw [hpc] at h
    simp only [Except.ok.injEq] at h
    exact ⟨occ', h ▸ processCourses_out ip_1 ip_2 ip_3 buffer_size
      seating_type (sortedCourses ip_1) (fun _ _ => 0) [] occ' plan1 hpc⟩

theorem allocate_eq_sorted (ip_1 : List StudentRec)
    (ip_2 : List TimetableEntry) (ip_3 : List Room) (buffer_size : Nat)
    (seating_type : String) (plan : List Record)
    (h : allocate_seating_with_optimization ip_1 ip_2 ip_3 buffer_size
      seating_type = .ok plan) :
    ∃ plan0, allocate_plan ip_1 ip_2 ip_3 buffer_size seating_type =
      .ok plan0 ∧ plan = sortPlanByDate plan0 := by
  simp only [allocate_seating_with_optimization] at h
  rcases hap : allocate_plan ip_1 ip_2 ip_3 buffer_size seating_type
      with e | plan0
  · rw [hap] at h
    exact absurd h (by simp [Except.map])
  · rw [hap] at h
    simp only [Except.map, Except.ok.injEq] at h
    exact ⟨plan0, rfl, h.symm⟩

theorem rollsDisjoint_symmetric :
    Symmetric (fun a b : Record => ∀ x ∈ a.Roll_list, x ∉ b.Roll_list) := by
  intro a b hab x hxb hxa
  exact hab x hxa hxb

theorem sortPlanByDate_perm (plan : List Record) :
    List.Perm (sortPlanByDate plan) plan :=
  sortByStable_perm _ plan

theorem allocate_recwf (ip_1 : List StudentRec) (ip_2 : List TimetableEntry)
    (ip_3 : List Room) (buffer_size : Nat) (seating_type : String)
    (plan : List Record)
    (hok : allocate_seating_with_optimization ip_1 ip_2 ip_3 buffer_size
      seating_type = .ok plan) :
    ∀ r ∈ plan, RecWf ip_1 ip_2 ip_3 buffer_size r := by
  obtain ⟨plan0, hap, rfl⟩ :=
    allocate_eq_sorted ip_1 ip_2 ip_3 buffer_size seating_type _ hok
  obtain ⟨occ', ext, hplan, hwf, _, _, _, _⟩ :=
    allocate_plan_out ip_1 ip_2 ip_3 buffer_size seating_type plan0 hap
  have hext : plan0 = ext := by simpa using hplan
  intro r hr
  have hr0 : r ∈ plan0 := (sortPlanByDate_perm plan0).subset hr
  rw [hext] at hr0
  exact (hwf r hr0).2

theorem allocate_pairwise_rolls (ip_1 : List StudentRec)
    (ip_2 : List TimetableEntry) (ip_3 : List Room) (buffer_size : Nat)
    (seating_type : String) (plan : List Record)
    (hrolls : (ip_1.map StudentRec.roll_no).Nodup)
    (hok : allocate_seating_with_optimization ip_1 ip_2 ip_3 buffer_size
      seating_type = .ok plan) :
    plan.Pairwise (fun a b => ∀ x ∈ a.Roll_list, x ∉ b.Roll_list) := by
  obtain ⟨plan0, hap, rfl⟩ :=
    allocate_eq_sorted ip_1 ip_2 ip_3 buffer_size seating_type _ hok
  obtain ⟨occ', ext, hplan, _, _, _, hdisj, _⟩ :=
    allocate_plan_out ip_1 ip_2 ip_3 buffer_size seating_type plan0 hap
  have hext : plan0 = ext := by simpa using hplan
  have hpair := hdisj hrolls (sortedCourses_nodup ip_1)
  rw [← hext] at hpair
  exact ((sortPlanByDate_perm plan0).pairwise_iff
    (fun hab => rollsDisjoint_symmetric hab)).mpr hpair

/-- C1: for every room of the room table and every exam date, the total
`Allocated_students_count` over the returned records that name that room
and that date never exceeds the room's capacity minus the buffer size
(room names are unique identifiers per the data model; the subtraction is
the truncated one on ℕ, the usable capacity being 0 when the buffer
exceeds the room capacity). -/
theorem claim_c1_capacity_invariant (ip_1 : List StudentRec)
    (ip_2 : List TimetableEntry) (ip_3 : List Room) (buffer_size : Nat)
    (seating_type : String) (plan : List Record)
    (hnames : (ip_3.map Room.room_name).Nodup)
    (hok : allocate_seating_with_optimization ip_1 ip_2 ip_3 buffer_size
      seating_type = .ok plan)
    (room : Room) (hroom : room ∈ ip_3) (d : CalDate) :
    sumCounts plan room.room_name d ≤ room.capacity - buffer_size := by
  obtain ⟨plan0, hap, rfl⟩ :=
    allocate_eq_sorted ip_1 ip_2 ip_3 buffer_size seating_type _ hok
  obtain ⟨occ', ext, hplan, _, hocc, hbound, _, _⟩ :=
    allocate_plan_out ip_1 ip_2 ip_3 buffer_size seating_type plan0 hap
  have hext : plan0 = ext := by simpa using hplan
  rw [sumCounts_perm (sortPlanByDate_perm plan0) room.room_name d, hext]
  have h1 := hocc room.room_name d
  simp only at h1
  have h2 := hbound hnames (fun r _ _ => Nat.zero_le _) room hroom d
  omega

/-- C2: under the data model's roll-number uniqueness, no roll number
occurs in the roll lists of two different allocation records of the
returned plan (no student is seated twice). -/
theorem claim_c2_no_duplicate_seating (ip_1 : List StudentRec)
    (ip_2 : List TimetableEntry) (ip_3 : List Room) (buffer_size : Nat)
    (seating_type : String) (plan : List Record)
    (hrolls : (ip_1.map StudentRec.roll_no).Nodup)
    (hok : allocate_seating_with_optimization ip_1 ip_2 ip_3 buffer_size
      seating_type = .ok plan) :
    plan.Pairwise (fun a b => ∀ x ∈ a.Roll_list, x ∉ b.Roll_list) :=
  allocate_pairwise_rolls ip_1 ip_2 ip_3 buffer_size seating_type plan
    hrolls hok

/-- C6: every returned record names a room of the room table that lies in
one of the prioritized blocks `['Block 9', 'LT']`. -/
theorem claim_c6_prioritized_blocks_only (ip_1 : List StudentRec)
    (ip_2 : List TimetableEntry) (ip_3 : List Room) (buffer_size : Nat)
    (seating_type : String) (plan : List Record)
    (hok : allocate_seating_with_optimization ip_1 ip_2 ip_3 buffer_size
      seating_type = .ok plan) :
    ∀ r ∈ plan, ∃ rm ∈ ip_3, r.Room = rm.room_name ∧
      rm.block ∈ prioritized_blocks := by
  intro r hr
  obtain ⟨_, _, _, _, rm, hrm, hname, hblk, _⟩ :=
    allocate_recwf ip_1 ip_2 ip_3 buffer_size seating_type plan hok r hr
  exact ⟨rm, hrm, hname, hblk⟩

/-- C7: in the emitted seating plan (the order records are appended,
before the final date sort), every record of a larger course precedes
every record of any smaller course: record order follows descending
course-group size. -/
theorem claim_c7_courses_by_descending_size (ip_1 : List StudentRec)
    (ip_2 : List TimetableEntry) (ip_3 : List Room) (buffer_size : Nat)
    (seating_type : String) (plan0 : List Record)
    (hok : allocate_plan ip_1 ip_2 ip_3 buffer_size seating_type =
      .ok plan0) :
    plan0.Pairwise (fun a b =>
      courseSize ip_1 b.course_code ≤ courseSize ip_1 a.course_code) := by
  obtain ⟨occ', ext, hplan, _, _, _, _, hsize⟩ :=
    allocate_plan_out ip_1 ip_2 ip_3 buffer_size seating_type plan0 hok
  have hext : plan0 = ext := by simpa using hplan
  rw [hext]
  exact hsize (sortedCourses_sorted ip_1)

/-- C8: a course with no timetable entry is skipped: the course loop
leaves the state untouched for it, and no returned record carries its
course code. -/
theorem claim_c8_no_timetable_skip :
    (∀ (ip_1 : List StudentRec) (ip_2 : List TimetableEntry)
      (ip_3 : List Room) (buffer_size : Nat) (seating_type : String)
      (c : String) (cs : List String) (occ : Occ) (plan : List Record),
      (∀ e ∈ ip_2, e.course ≠ c) →
      processCourses ip_1 ip_2 ip_3 buffer_size seating_type (c :: cs) occ
        plan =
      processCourses ip_1 ip_2 ip_3 buffer_size seating_type cs occ plan) ∧
    (∀ (ip_1 : List StudentRec) (ip_2 : List TimetableEntry)
      (ip_3 : List Room) (buffer_size : Nat) (seating_type : String)
      (plan : List Record) (c : String),
      (∀ e ∈ ip_2, e.course ≠ c) →
      allocate_seating_with_optimization ip_1 ip_2 ip_3 buffer_size
        seating_type = .ok plan →
      ∀ r ∈ plan, r.course_code ≠ c) := by
  constructor
  · intro ip_1 ip_2 ip_3 buffer_size seating_type c cs occ plan hno
    have hfil : ip_2.filter (fun e => e.course = c) = [] := by
      rw [List.filter_eq_nil_iff]
      intro e he
      simpa using hno e he
    simp only [processCourses, hfil, List.head?_nil]
  · intro ip_1 ip_2 ip_3 buffer_size seating_type plan c hno hok r hr heq
    obtain ⟨_, _, _, ⟨e, he, hec⟩, _⟩ :=
      allocate_recwf ip_1 ip_2 ip_3 buffer_size seating_type plan hok r hr
    exact hno e he (heq ▸ hec)

/-- C9: a room whose capacity does not exceed the buffer size is never
named by any returned record (its usable capacity is zero on every date;
room names unique per the data model). -/
theorem claim_c9_buffer_swallows_room (ip_1 : List StudentRec)
    (ip_2 : List TimetableEntry) (ip_3 : List Room) (buffer_size : Nat)
    (seating_type : String) (plan : List Record)
    (hnames : (ip_3.map Room.room_name).Nodup)
    (hok : allocate_seating_with_optimization ip_1 ip_2 ip_3 buffer_size
      seating_type = .ok plan)
    (room : Room) (hroom : room ∈ ip_3)
    (hbuf : room.capacity ≤ buffer_size) :
    ∀ r ∈ plan, r.Room ≠ room.room_name := by
  intro r hr heq
  obtain ⟨_, _, _, _, rm, hrm, hname, _, hcap⟩ :=
    allocate_recwf ip_1 ip_2 ip_3 buffer_size seating_type plan hok r hr
  have hrme : rm = room :=
    List.inj_on_of_nodup_map hnames hrm hroom (by rw [← hname, heq])
  rw [hrme] at hcap
  omega

/-- C10: in every returned record, `Allocated_students_count` equals the
number of roll numbers in `Roll_list`, and those roll numbers occur in the
order the students appear in the course's roster group. -/
theorem claim_c10_count_matches_roll_list (ip_1 : List StudentRec)
    (ip_2 : List TimetableEntry) (ip_3 : List Room) (buffer_size : Nat)
    (seating_type : String) (plan : List Record)
    (hok : allocate_seating_with_optimization ip_1 ip_2 ip_3 buffer_size
      seating_type = .ok plan) :
    ∀ r ∈ plan, r.Allocated_students_count = r.Roll_list.length ∧
      List.Sublist r.Roll_list
        ((ip_1.filter (fun s => s.course = r.course_code)).map
          StudentRec.roll_no) := by
  intro r hr
  obtain ⟨hcnt, _, hsub, _, _⟩ :=
    allocate_recwf ip_1 ip_2 ip_3 buffer_size seating_type plan hok r hr
  exact ⟨hcnt, hsub⟩

theorem filterlen_le_one_of_pairwise (x : String) :
    ∀ (l : List Record),
      l.Pairwise (fun a b => ∀ y ∈ a.Roll_list, y ∉ b.Roll_list) →
      (l.filter (fun r => x ∈ r.Roll_list)).length ≤ 1 := by
  intro l
  induction l with
  | nil =>
    intro _
    simp
  | cons r rs ih =>
    intro h
    obtain ⟨hr, hrs⟩ := List.pairwise_cons.mp h
    by_cases hx : x ∈ r.Roll_list
    · rw [List.filter_cons_of_pos (by simpa using hx)]
      have hnil : rs.filter (fun r => x ∈ r.Roll_list) = [] := by
        rw [List.filter_eq_nil_iff]
        intro b hb
        simpa using hr b hb x hx
      rw [hnil]
      simp
    · rw [List.filter_cons_of_neg (by simpa using hx)]
      exact ih hrs

/-- C3 (amended): every student appears in **at most** one returned
record; a student whose course has a timetable entry can still be dropped
silently when the prioritized rooms run out of capacity. -/
theorem claim_c3_amended_at_most_once (ip_1 : List StudentRec)
    (ip_2 : List TimetableEntry) (ip_3 : List Room) (buffer_size : Nat)
    (seating_type : String) (plan : List Record)
    (hrolls : (ip_1.map StudentRec.roll_no).Nodup)
    (hok : allocate_seating_with_optimization ip_1 ip_2 ip_3 buffer_size
      seating_type = .ok plan)
    (s : StudentRec) (_hs : s ∈ ip_1)
    (_htt : ∃ e ∈ ip_2, e.course = s.course) :
    (plan.filter (fun r => s.roll_no ∈ r.Roll_list)).length ≤ 1 :=
  filterlen_le_one_of_pairwise s.roll_no plan
    (allocate_pairwise_rolls ip_1 ip_2 ip_3 buffer_size seating_type plan
      hrolls hok)

/-- C3 counterexample: one student, whose course does have a timetable
entry, with an empty room table: the call returns the empty plan, so the
student appears in no record at all (a silent drop). -/
theorem claim_c3_counterexample :
    (∃ e ∈ ([⟨"CS1", wD⟩] : List TimetableEntry), e.course = "CS1") ∧
    allocate_seating_with_optimization [⟨"r1", "S1", "CS1"⟩]
      [⟨"CS1", wD⟩] [] 0 "dense" = .ok [] ∧
    ¬ ∃ r ∈ ([] : List Record), "r1" ∈ r.Roll_list := by
  refine ⟨⟨⟨"CS1", wD⟩, by simp, rfl⟩, by rfl, by simp⟩

/-- C4 (amended): whenever the call fails, the error is exactly the
invalid-seating-type message and the seating type is neither `dense` nor
`sparse`; no partial plan is produced (the result carries no records).
The converse direction of the original claim is false: an unrecognized
seating type only raises once some room is actually examined. -/
theorem claim_c4_amended_invalid_mode (ip_1 : List StudentRec)
    (ip_2 : List TimetableEntry) (ip_3 : List Room) (buffer_size : Nat)
    (seating_type : String) (e : String)
    (herr : allocate_seating_with_optimization ip_1 ip_2 ip_3 buffer_size
      seating_type = .error e) :
    e = "Invalid seating type. Choose 'dense' or 'sparse'." ∧
    seating_type ≠ "dense" ∧ seating_type ≠ "sparse" := by
  simp only [allocate_seating_with_optimization] at herr
  rcases hap : allocate_plan ip_1 ip_2 ip_3 buffer_size seating_type
      with e' | plan0
  · rw [hap] at herr
    simp only [Except.map, Except.error.injEq] at herr
    subst herr
    simp only [allocate_plan] at hap
    rcases hpc : processCourses ip_1 ip_2 ip_3 buffer_size seating_type
        (sortedCourses ip_1) (fun _ _ => 0) [] with e'' | pr
    · rw [hpc] at hap
      simp only [Except.error.injEq] at hap
      exact hap ▸ processCourses_error ip_1 ip_2 ip_3 buffer_size
        seating_type (sortedCourses ip_1) (fun _ _ => 0) [] e'' hpc
    · rw [hpc] at hap
      exact absurd hap (by simp)
  · rw [hap] at herr
    exact absurd herr (by simp [Except.map])

/-- C4 counterexample: with an unrecognized seating type but an empty
roster, no room is ever examined, so no error is raised — the call
returns an empty plan instead of failing, refuting the "if and only if"
of the claim. -/
theorem claim_c4_counterexample :
    allocate_seating_with_optimization [] [] [] 5 "diagonal" = .ok [] ∧
    "diagonal" ≠ "dense" ∧ "diagonal" ≠ "sparse" :=
  ⟨by rfl, by decide, by decide⟩

theorem processRoom_dense_take (buffer_size : Nat) (course : String)
    (d : CalDate) (room : Room) (occ : Occ) (students : List StudentRec)
    (hg : ((occ d room.room_name : Nat) : Int) <
      (room.capacity : Int) - (buffer_size : Int)) :
    ∃ res, processRoom buffer_size "dense" course d room occ students =
      .ok res ∧ assignedCount res.2.1 =
        min (room.capacity - buffer_size - occ d room.room_name)
          students.length := by
  simp only [processRoom]
  rw [if_neg (by omega), if_pos trivial]
  split
  · rename_i hpos
    refine ⟨_, rfl, ?_⟩
    simp only [assignedCount, List.length_take]
    omega
  · rename_i hpos
    refine ⟨_, rfl, ?_⟩
    simp only [assignedCount]
    omega

theorem processRoom_sparse_take (buffer_size : Nat) (course : String)
    (d : CalDate) (room : Room) (occ : Occ) (students : List StudentRec)
    (hg : ((occ d room.room_name : Nat) : Int) <
      (room.capacity : Int) - (buffer_size : Int)) :
    ∃ res, processRoom buffer_size "sparse" course d room occ students =
      .ok res ∧ assignedCount res.2.1 =
        min ((room.capacity - buffer_size - occ d room.room_name) / 2)
          students.length := by
  simp only [processRoom]
  rw [if_neg (by omega), if_neg (by decide), if_pos trivial]
  split
  · rename_i hpos
    refine ⟨_, rfl, ?_⟩
    simp only [assignedCount, List.length_take]
    omega
  · rename_i hpos
    refine ⟨_, rfl, ?_⟩
    simp only [assignedCount]
    omega

theorem uniqueCourses_fold_const (c : String) :
    ∀ n, (List.replicate n c).foldl
      (fun acc x => if x ∈ acc then acc else acc ++ [x]) [c] = [c] := by
  intro n
  induction n with
  | zero => simp
  | succ n ih =>
    rw [List.replicate_succ, List.foldl_cons, if_pos (by simp)]
    exact ih

theorem uniqueCourses_const (roster : List StudentRec) (c : String)
    (hall : ∀ s ∈ roster, s.course = c) (hne : roster ≠ []) :
    uniqueCourses roster = [c] := by
  have hmap : roster.map StudentRec.course =
      List.replicate (roster.map StudentRec.course).length c := by
    apply List.eq_replicate_of_mem
    intro b hb
    obtain ⟨s, hs, rfl⟩ := List.mem_map.mp hb
    exact hall s hs
  unfold uniqueCourses
  rw [hmap]
  obtain ⟨n, hn⟩ : ∃ n, (roster.map StudentRec.course).length = n + 1 := by
    cases roster with
    | nil => exact absurd rfl hne
    | cons s rest => exact ⟨rest.length, by simp⟩
  rw [hn, List.replicate_succ, List.foldl_cons, if_neg (by simp),
    List.nil_append]
  exact uniqueCourses_fold_const c n

theorem sortedCourses_const (roster : List StudentRec) (c : String)
    (hall : ∀ s ∈ roster, s.course = c) (hne : roster ≠ []) :
    sortedCourses roster = [c] := by
  unfold sortedCourses
  rw [uniqueCourses_const roster c hall hne]
  rfl

theorem singleRoom_run (roster : List StudentRec) (c : String) (d : CalDate)
    (name : String) (cap buffer_size : Nat) (seating_type : String)
    (hall : ∀ s ∈ roster, s.course = c) (hne : roster ≠ [])
    (occ1 : Occ) (r? : Option Record) (students' : List StudentRec)
    (hpr : processRoom buffer_size seating_type c d
      ⟨name, "Block 9", cap⟩ (fun _ _ => 0) roster =
      .ok (occ1, r?, students')) :
    allocate_seating_with_optimization roster [⟨c, d⟩]
      [⟨name, "Block 9", cap⟩] buffer_size seating_type =
      .ok r?.toList := by
  have hfilR : roster.filter (fun s => s.course = c) = roster :=
    List.filter_eq_self.mpr (fun s hs => by simp [hall s hs])
  have hrooms1 : processRooms buffer_size seating_type c d
      [⟨name, "Block 9", cap⟩] (fun _ _ => 0) [] roster =
      .ok (occ1, r?.toList, students') := by
    simp only [processRooms]
    rw [hpr]
    simp only [List.nil_append]
    by_cases hz : students'.length = 0
    · rw [if_pos hz]
    · rw [if_neg hz]
  have hsort1 : sortRoomsByCapacityDesc
      (([⟨name, "Block 9", cap⟩] : List Room).filter
        (fun r => r.block = "Block 9")) = [⟨name, "Block 9", cap⟩] := by
    rfl
  have hblocks1 : processBlocks [⟨name, "Block 9", cap⟩] buffer_size
      seating_type c d prioritized_blocks (fun _ _ => 0) [] roster =
      .ok (occ1, r?.toList, students') := by
    simp only [prioritized_blocks, processBlocks]
    rw [if_neg (by simp), hsort1, hrooms1]
    simp only
    by_cases hz : students'.length = 0
    · rw [if_pos hz]
    · rw [if_neg hz]
      rw [if_pos (by simp)]
  have hcourses : processCourses roster [⟨c, d⟩] [⟨name, "Block 9", cap⟩]
      buffer_size seating_type [c] (fun _ _ => 0) [] =
      .ok (occ1, r?.toList) := by
    simp only [processCourses]
    rw [show (([⟨c, d⟩] : List TimetableEntry).filter
      (fun e => e.course = c)) = [⟨c, d⟩] from by simp]
    simp only [List.head?_cons, hfilR]
    rw [hblocks1]
  simp only [allocate_seating_with_optimization, allocate_plan]
  rw [sortedCourses_const roster c hall hne, hcourses]
  simp only [Except.map]
  cases r? with
  | none => rfl
  | some rcd => simp [sortPlanByDate, sortByStable, insertSorted]

theorem singleRoom_dense (name : String) (cap buffer_size : Nat)
    (c : String) (d : CalDate) (roster : List StudentRec)
    (hall : ∀ s ∈ roster, s.course = c)
    (hcap : buffer_size < cap)
    (hN : cap - buffer_size ≤ roster.length) :
    ∃ rcd, allocate_seating_with_optimization roster [⟨c, d⟩]
        [⟨name, "Block 9", cap⟩] buffer_size "dense" = .ok [rcd] ∧
      rcd.Room = name ∧
      rcd.Allocated_students_count = cap - buffer_size ∧
      rcd.Roll_list =
        (roster.take (cap - buffer_size)).map StudentRec.roll_no := by
  have hne : roster ≠ [] := by
    intro h
    subst h
    simp at hN
    omega
  rcases hpr : processRoom buffer_size "dense" c d ⟨name, "Block 9", cap⟩
      (fun _ _ => 0) roster with e | ⟨occ1, r?, students'⟩
  · have := processRoom_error buffer_size "dense" c d _ _ _ e hpr
    exact absurd rfl this.2.1
  · have hrun := singleRoom_run roster c d name cap buffer_size "dense"
      hall hne occ1 r? students' hpr
    simp only [processRoom] at hpr
    split at hpr
    · rename_i hbad
      exfalso
      simp only [ge_iff_le] at hbad
      omega
    · rw [if_pos trivial] at hpr
      split at hpr
      · rename_i hpos
        simp only [Except.ok.injEq, Prod.mk.injEq] at hpr
        obtain ⟨h1, h2, h3⟩ := hpr
        refine ⟨_, by rw [hrun, ← h2]; rfl, rfl, ?_, ?_⟩
        · simp only [List.length_take]
          omega
        · show List.map StudentRec.roll_no (roster.take _) = _
          congr 2
          omega
      · rename_i hbad
        exfalso
        omega

theorem singleRoom_sparse (name : String) (cap buffer_size : Nat)
    (c : String) (d : CalDate) (roster : List StudentRec)
    (plan : List Record)
    (hall : ∀ s ∈ roster, s.course = c)
    (hcap : buffer_size < cap)
    (hN : cap - buffer_size ≤ roster.length)
    (hok : allocate_seating_with_optimization roster [⟨c, d⟩]
      [⟨name, "Block 9", cap⟩] buffer_size "sparse" = .ok plan) :
    ∀ r ∈ plan, r.Allocated_students_count ≤ (cap - buffer_size) / 2 := by
  have hne : roster ≠ [] := by
    intro h
    subst h
    simp at hN
    omega
  rcases hpr : processRoom buffer_size "sparse" c d ⟨name, "Block 9", cap⟩
      (fun _ _ => 0) roster with e | ⟨occ1, r?, students'⟩
  · have := processRoom_error buffer_size "sparse" c d _ _ _ e hpr
    exact absurd rfl this.2.2
  · have hrun := singleRoom_run roster c d name cap buffer_size "sparse"
      hall hne occ1 r? students' hpr
    rw [hrun] at hok
    simp only [Except.ok.injEq] at hok
    subst hok
    simp only [processRoom] at hpr
    split at hpr
    · rename_i hbad
      exfalso
      simp only [ge_iff_le] at hbad
      omega
    · rw [if_neg (by decide), if_pos trivial] at hpr
      split at hpr
      · simp only [Except.ok.injEq, Prod.mk.injEq] at hpr
        obtain ⟨h1, h2, h3⟩ := hpr
        rw [← h2]
        intro r hr
        rcases List.mem_singleton.mp (by simpa using hr) with rfl
        simp only [List.length_take]
        omega
      · simp only [Except.ok.injEq, Prod.mk.injEq] at hpr
        obtain ⟨h1, h2, h3⟩ := hpr
        rw [← h2]
        intro r hr
        simp at hr

/-- C5: at each room the allocator takes `min(remaining, students_left)`
students in dense mode and `min(remaining / 2, students_left)` in sparse
mode; consequently, for a single room of adjusted capacity `C = cap − buf`
and a course of size `N ≥ C`, dense mode emits one record seating exactly
`C` students (the first `C` of the group, in order) and sparse mode never
seats more than `C / 2` in any record. -/
theorem claim_c5_mode_semantics :
    (∀ (buffer_size : Nat) (course : String) (d : CalDate) (room : Room)
      (occ : Occ) (students : List StudentRec),
      ((occ d room.room_name : Nat) : Int) <
        (room.capacity : Int) - (buffer_size : Int) →
      ∃ res, processRoom buffer_size "dense" course d room occ students =
        .ok res ∧ assignedCount res.2.1 =
          min (room.capacity - buffer_size - occ d room.room_name)
            students.length) ∧
    (∀ (buffer_size : Nat) (course : String) (d : CalDate) (room : Room)
      (occ : Occ) (students : List StudentRec),
      ((occ d room.room_name : Nat) : Int) <
        (room.capacity : Int) - (buffer_size : Int) →
      ∃ res, processRoom buffer_size "sparse" course d room occ students =
        .ok res ∧ assignedCount res.2.1 =
          min ((room.capacity - buffer_size - occ d room.room_name) / 2)
            students.length) ∧
    (∀ (name : String) (cap buffer_size : Nat) (c : String) (d : CalDate)
      (roster : List StudentRec),
      (∀ s ∈ roster, s.course = c) → buffer_size < cap →
      cap - buffer_size ≤ roster.length →
      ∃ rcd, allocate_seating_with_optimization roster [⟨c, d⟩]
          [⟨name, "Block 9", cap⟩] buffer_size "dense" = .ok [rcd] ∧
        rcd.Room = name ∧ rcd.Allocated_students_count = cap - buffer_size ∧
        rcd.Roll_list =
          (roster.take (cap - buffer_size)).map StudentRec.roll_no) ∧
    (∀ (name : String) (cap buffer_size : Nat) (c : String) (d : CalDate)
      (roster : List StudentRec) (plan : List Record),
      (∀ s ∈ roster, s.course = c) → buffer_size < cap →
      cap - buffer_size ≤ roster.length →
      allocate_seating_with_optimization roster [⟨c, d⟩]
        [⟨name, "Block 9", cap⟩] buffer_size "sparse" = .ok plan →
      ∀ r ∈ plan, r.Allocated_students_count ≤ (cap - buffer_size) / 2) :=
  ⟨processRoom_dense_take, processRoom_sparse_take, singleRoom_dense,
    singleRoom_sparse⟩

/-- Witness for C5, instantiating all four parts at concrete inputs. -/
theorem claim_c5_mode_semantics_witness :
    (∃ res, processRoom 0 "dense" "CS1" wD ⟨"A", "Block 9", 2⟩
        (fun _ _ => 0) wRoster = .ok res ∧
      assignedCount res.2.1 = min (2 - 0 - 0) wRoster.length) ∧
    (∃ res, processRoom 0 "sparse" "CS1" wD ⟨"A", "Block 9", 2⟩
        (fun _ _ => 0) wRoster = .ok res ∧
      assignedCount res.2.1 = min ((2 - 0 - 0) / 2) wRoster.length) ∧
    (∃ rcd, allocate_seating_with_optimization wRoster wTT wRooms 0
        "dense" = .ok [rcd] ∧ rcd.Room = "A" ∧
      rcd.Allocated_students_count = 2 - 0 ∧
      rcd.Roll_list = (wRoster.take (2 - 0)).map StudentRec.roll_no) ∧
    ((⟨wD, "Sunday", "CS1", "A", 1, ["r1"]⟩ : Record).Allocated_students_count
      ≤ (2 - 0) / 2) :=
  ⟨claim_c5_mode_semantics.1 0 "CS1" wD ⟨"A", "Block 9", 2⟩ (fun _ _ => 0)
      wRoster (by decide),
    claim_c5_mode_semantics.2.1 0 "CS1" wD ⟨"A", "Block 9", 2⟩
      (fun _ _ => 0) wRoster (by decide),
    claim_c5_mode_semantics.2.2.1 "A" 2 0 "CS1" wD wRoster (by decide)
      (by decide) (by decide),
    claim_c5_mode_semantics.2.2.2 "A" 2 0 "CS1" wD wRoster
      [⟨wD, "Sunday", "CS1", "A", 1, ["r1"]⟩] (by decide) (by decide)
      (by decide) (by rfl) ⟨wD, "Sunday", "CS1", "A", 1, ["r1"]⟩
      (by decide)⟩

/-- Witness for C1 on the concrete inputs. -/
theorem claim_c1_capacity_invariant_witness :
    ∃ plan, allocate_seating_with_optimization wRoster wTT wRooms 0
        "dense" = .ok plan ∧ sumCounts plan "A" wD ≤ 2 - 0 := by
  refine ⟨wPlan, by rfl, ?_⟩
  have h := claim_c1_capacity_invariant wRoster wTT wRooms 0 "dense" wPlan
    (by decide) (by rfl) ⟨"A", "Block 9", 2⟩ (by decide) wD
  simpa using h

/-- Witness for C2 on the concrete inputs. -/
theorem claim_c2_no_duplicate_seating_witness :
    wPlan.Pairwise (fun a b => ∀ x ∈ a.Roll_list, x ∉ b.Roll_list) :=
  claim_c2_no_duplicate_seating wRoster wTT wRooms 0 "dense" wPlan
    (by decide) (by rfl)

/-- Witness for the amended C3 on the concrete inputs. -/
theorem claim_c3_amended_at_most_once_witness :
    (wPlan.filter (fun r => "r1" ∈ r.Roll_list)).length ≤ 1 := by
  have h := claim_c3_amended_at_most_once wRoster wTT wRooms 0 "dense"
    wPlan (by decide) (by rfl) ⟨"r1", "S1", "CS1"⟩ (by decide)
    ⟨⟨"CS1", wD⟩, by decide, rfl⟩
  simpa using h

/-- Witness for the amended C4: a concrete call that does raise. -/
theorem claim_c4_amended_invalid_mode_witness :
    "foo" ≠ "dense" ∧ "foo" ≠ "sparse" :=
  (claim_c4_amended_invalid_mode wRoster wTT [⟨"A", "Block 9", 10⟩] 0 "foo"
    "Invalid seating type. Choose 'dense' or 'sparse'." (by rfl)).2

/-- Witness for C6 on the concrete inputs. -/
theorem claim_c6_prioritized_blocks_only_witness :
    ∃ rm ∈ wRooms, wRec.Room = rm.room_name ∧
      rm.block ∈ prioritized_blocks :=
  claim_c6_prioritized_blocks_only wRoster wTT wRooms 0 "dense" wPlan
    (by rfl) wRec (by decide)

/-- Witness for C7: two courses, the larger one later in input order. -/
theorem claim_c7_courses_by_descending_size_witness :
    wPlan2.Pairwise (fun a b =>
      courseSize wRoster2 b.course_code ≤ courseSize wRoster2 a.course_code) :=
  claim_c7_courses_by_descending_size wRoster2 wTT2 [⟨"A", "Block 9", 10⟩]
    0 "dense" wPlan2 (by rfl)

/-- Witness for C8 on concrete inputs: the course `AA` has no timetable
entry, is skipped by the course loop, and contributes no record. -/
theorem claim_c8_no_timetable_skip_witness :
    (processCourses wRoster2 [⟨"BB", wD⟩] [⟨"A", "Block 9", 10⟩] 0 "dense"
        ("AA" :: ["BB"]) (fun _ _ => 0) [] =
      processCourses wRoster2 [⟨"BB", wD⟩] [⟨"A", "Block 9", 10⟩] 0 "dense"
        ["BB"] (fun _ _ => 0) []) ∧
    (⟨wD, "Sunday", "BB", "A", 2, ["b1", "b2"]⟩ : Record).course_code ≠
      "AA" :=
  ⟨claim_c8_no_timetable_skip.1 wRoster2 [⟨"BB", wD⟩] [⟨"A", "Block 9", 10⟩]
      0 "dense" "AA" ["BB"] (fun _ _ => 0) [] (by decide),
    claim_c8_no_timetable_skip.2 wRoster2 [⟨"BB", wD⟩]
      [⟨"A", "Block 9", 10⟩] 0 "dense"
      [⟨wD, "Sunday", "BB", "A", 2, ["b1", "b2"]⟩] "AA" (by decide)
      (by rfl) ⟨wD, "Sunday", "BB", "A", 2, ["b1", "b2"]⟩ (by decide)⟩

/-- Witness for C9: a room whose capacity (2) is below the buffer (3) is
never named; the students land in the other room instead. -/
theorem claim_c9_buffer_swallows_room_witness :
    (⟨wD, "Sunday", "CS1", "B", 3, ["r1", "r2", "r3"]⟩ : Record).Room ≠
      "A" :=
  claim_c9_buffer_swallows_room wRoster wTT
    [⟨"A", "Block 9", 2⟩, ⟨"B", "LT", 10⟩] 3 "dense"
    [⟨wD, "Sunday", "CS1", "B", 3, ["r1", "r2", "r3"]⟩] (by decide)
    (by rfl) ⟨"A", "Block 9", 2⟩ (by decide) (by decide)
    ⟨wD, "Sunday", "CS1", "B", 3, ["r1", "r2", "r3"]⟩ (by decide)

/-- Witness for C10 on the concrete inputs. -/
theorem claim_c10_count_matches_roll_list_witness :
    wRec.Allocated_students_count = wRec.Roll_list.length ∧
    List.Sublist wRec.Roll_list
      ((wRoster.filter (fun s => s.course = wRec.course_code)).map
        StudentRec.roll_no) :=
  claim_c10_count_matches_roll_list wRoster wTT wRooms 0 "dense" wPlan
    (by rfl) wRec (by decide)
